import Mathlib

set_option maxRecDepth 8000

/-!
Verification development for the retry / streaming / artifact-extraction core
of `apimart/query.py`.

The retry loop of `main` (query.py lines 301-373) is embedded as a step
function over an explicit attempt counter.  A transport oracle
`t : Nat → AttemptResult` gives the classified outcome of the `requests.post`
call made on the attempt with that zero-based index: an HTTP response with a
status code and body, a raised `requests.exceptions.Timeout`, a raised
`requests.exceptions.ConnectionError`, or any other raised exception.
-/

/-- One network attempt's classified outcome, as distinguished by the
`try`/`except` arms of the retry loop in `main`. -/
inductive AttemptResult where
  | http (status : Nat) (body : String)
  | timeout
  | connError
  | otherExc
deriving DecidableEq

/-- `wait_time = 2 ** retry_count` (query.py lines 332, 343, 354). -/
def wait_time (retry_count : Nat) : Nat := 2 ^ retry_count

/-- Observable result of the whole retry loop: how many attempts ran, the
sleeps performed (attempt index paired with the slept duration, in order),
and the final value of the `response` variable (status code and body), which
is `none` exactly when no `requests.post` call ever returned. -/
structure CoordResult where
  attempts : Nat
  sleeps : List (Nat × Nat)
  response : Option (Nat × String)
deriving DecidableEq

/-- The `while retry_count < max_retries` loop of query.py lines 306-365,
by recursion on the remaining budget `r = max_retries - retry_count`.
Branches mirror the source: a response with status `< 500` breaks out; a
status `≥ 500` sleeps `2 ** retry_count` when `retry_count < max_retries - 1`
and retries; `Timeout` and `ConnectionError` do the same; any other
exception increments `retry_count` and retries with no sleep. -/
def coordGo (t : Nat → AttemptResult) (m : Nat) :
    Nat → Nat → Option (Nat × String) → CoordResult
  | 0, _, resp => ⟨0, [], resp⟩
  | r + 1, rc, resp =>
    match t rc with
    | .http s b =>
      if s < 500 then ⟨1, [], some (s, b)⟩
      else
        ⟨(coordGo t m r (rc + 1) (some (s, b))).attempts + 1,
         (if rc < m - 1 then [(rc, wait_time rc)] else []) ++
           (coordGo t m r (rc + 1) (some (s, b))).sleeps,
         (coordGo t m r (rc + 1) (some (s, b))).response⟩
    | .timeout =>
        ⟨(coordGo t m r (rc + 1) resp).attempts + 1,
         (if rc < m - 1 then [(rc, wait_time rc)] else []) ++
           (coordGo t m r (rc + 1) resp).sleeps,
         (coordGo t m r (rc + 1) resp).response⟩
    | .connError =>
        ⟨(coordGo t m r (rc + 1) resp).attempts + 1,
         (if rc < m - 1 then [(rc, wait_time rc)] else []) ++
           (coordGo t m r (rc + 1) resp).sleeps,
         (coordGo t m r (rc + 1) resp).response⟩
    | .otherExc =>
        ⟨(coordGo t m r (rc + 1) resp).attempts + 1,
         (coordGo t m r (rc + 1) resp).sleeps,
         (coordGo t m r (rc + 1) resp).response⟩

/-- The retry loop entered with `retry_count = 0` and `response = None`
(query.py lines 301-302), with retry budget `max_retries`. -/
def coordRun (t : Nat → AttemptResult) (max_retries : Nat) : CoordResult :=
  coordGo t max_retries max_retries 0 none

/-- The terminal state reached after the loop: `response = None` exits with
an error (query.py lines 367-373); a stored status `200` goes to the success
path (line 458); another status `< 500` goes to the terminal failure path
that prints the status and the raw body (lines 532-609); a stored status
`≥ 500` means the budget was exhausted on server errors and the same
failure path reports the last one. -/
inductive Outcome where
  | succeeded (body : String)
  | fatal (status : Nat) (body : String)
  | exhausted (status : Nat) (body : String)
  | noResponse
deriving DecidableEq

def outcomeOf (res : CoordResult) : Outcome :=
  match res.response with
  | none => .noResponse
  | some (s, b) =>
    if s < 500 then (if s = 200 then .succeeded b else .fatal s b)
    else .exhausted s b

/-- Whether the retry loop sleeps before retrying after this attempt outcome
(given remaining budget): true for HTTP `≥ 500`, `Timeout` and
`ConnectionError`; false for a sub-500 response (the loop breaks) and for
the bare `except Exception` arm (query.py lines 362-365), which retries
without sleeping. -/
def sleepsOn : AttemptResult → Bool
  | .http s _ => decide (500 ≤ s)
  | .timeout => true
  | .connError => true
  | .otherExc => false

theorem coordGo_attempts_le (t : Nat → AttemptResult) (m : Nat) :
    ∀ (r rc : Nat) (resp : Option (Nat × String)),
      (coordGo t m r rc resp).attempts ≤ r := by
  intro r
  induction r with
  | zero => intro rc resp; simp [coordGo]
  | succ n ih =>
    intro rc resp
    simp only [coordGo]
    cases h : t rc with
    | http s b =>
      by_cases hs : s < 500
      · simp only [hs, if_true]; omega
      · simp only [hs, if_false]
        have := ih (rc + 1) (some (s, b))
        omega
    | timeout =>
      dsimp only; have := ih (rc + 1) resp; omega
    | connError =>
      dsimp only; have := ih (rc + 1) resp; omega
    | otherExc =>
      dsimp only; have := ih (rc + 1) resp; omega

theorem coordGo_sleeps_spec (t : Nat → AttemptResult) (m : Nat) :
    ∀ (r rc : Nat) (resp : Option (Nat × String)) (i d : Nat),
      (i, d) ∈ (coordGo t m r rc resp).sleeps →
      d = wait_time i ∧ rc ≤ i ∧ i < m - 1 ∧ sleepsOn (t i) = true := by
  intro r
  induction r with
  | zero => intro rc resp i d h; simp [coordGo] at h
  | succ n ih =>
    intro rc resp i d h
    simp only [coordGo] at h
    cases ht : t rc with
    | http s b =>
      rw [ht] at h
      by_cases hs : s < 500
      · simp [hs] at h
      · simp only [hs, if_false, List.mem_append] at h
        rcases h with h | h
        · by_cases hb : rc < m - 1
          · simp only [hb, if_true, List.mem_singleton, Prod.mk.injEq] at h
            obtain ⟨rfl, rfl⟩ := h
            refine ⟨rfl, le_refl _, hb, ?_⟩
            simp [ht, sleepsOn]; omega
          · simp [hb] at h
        · obtain ⟨h1, h2, h3, h4⟩ := ih (rc + 1) (some (s, b)) i d h
          exact ⟨h1, by omega, h3, h4⟩
    | timeout =>
      rw [ht] at h
      simp only [List.mem_append] at h
      rcases h with h | h
      · by_cases hb : rc < m - 1
        · simp only [hb, if_true, List.mem_singleton, Prod.mk.injEq] at h
          obtain ⟨rfl, rfl⟩ := h
          exact ⟨rfl, le_refl _, hb, by simp [ht, sleepsOn]⟩
        · simp [hb] at h
      · obtain ⟨h1, h2, h3, h4⟩ := ih (rc + 1) resp i d h
        exact ⟨h1, by omega, h3, h4⟩
    | connError =>
      rw [ht] at h
      simp only [List.mem_append] at h
      rcases h with h | h
      · by_cases hb : rc < m - 1
        · simp only [hb, if_true, List.mem_singleton, Prod.mk.injEq] at h
          obtain ⟨rfl, rfl⟩ := h
          exact ⟨rfl, le_refl _, hb, by simp [ht, sleepsOn]⟩
        · simp [hb] at h
      · obtain ⟨h1, h2, h3, h4⟩ := ih (rc + 1) resp i d h
        exact ⟨h1, by omega, h3, h4⟩
    | otherExc =>
      rw [ht] at h
      obtain ⟨h1, h2, h3, h4⟩ := ih (rc + 1) resp i d h
      exact ⟨h1, by omega, h3, h4⟩

theorem coordGo_sleep_occurs (t : Nat → AttemptResult) (m : Nat) :
    ∀ (r rc : Nat) (resp : Option (Nat × String)) (i : Nat),
      rc ≤ i → i < rc + (coordGo t m r rc resp).attempts →
      sleepsOn (t i) = true → i < m - 1 →
      (i, wait_time i) ∈ (coordGo t m r rc resp).sleeps := by
  intro r
  induction r with
  | zero =>
    intro rc resp i h1 h2 _ _
    simp [coordGo] at h2
    omega
  | succ n ih =>
    intro rc resp i h1 h2 hs hm
    simp only [coordGo] at h2 ⊢
    cases ht : t rc with
    | http s b =>
      rw [ht] at h2
      dsimp only at h2 ⊢
      by_cases hlt : s < 500
      · simp only [hlt, if_true] at h2 ⊢
        have hi : i = rc := by omega
        subst hi
        rw [ht] at hs
        simp only [sleepsOn, decide_eq_true_eq] at hs
        omega
      · simp only [hlt, if_false] at h2 ⊢
        by_cases hirc : i = rc
        · subst hirc
          simp [hm, List.mem_append]
        · have hlt2 : i + 1 ≤ i + 1 := le_refl _
          have := ih (rc + 1) (some (s, b)) i (by omega) (by omega) hs hm
          simp [List.mem_append, this]
    | timeout =>
      rw [ht] at h2
      dsimp only at h2 ⊢
      by_cases hirc : i = rc
      · subst hirc
        simp [hm, List.mem_append]
      · have := ih (rc + 1) resp i (by omega) (by omega) hs hm
        simp [List.mem_append, this]
    | connError =>
      rw [ht] at h2
      dsimp only at h2 ⊢
      by_cases hirc : i = rc
      · subst hirc
        simp [hm, List.mem_append]
      · have := ih (rc + 1) resp i (by omega) (by omega) hs hm
        simp [List.mem_append, this]
    | otherExc =>
      rw [ht] at h2
      dsimp only at h2 ⊢
      by_cases hirc : i = rc
      · subst hirc
        rw [ht] at hs
        simp [sleepsOn] at hs
      · exact ih (rc + 1) resp i (by omega) (by omega) hs hm

theorem coordGo_break (t : Nat → AttemptResult) (m : Nat) :
    ∀ (r rc : Nat) (resp : Option (Nat × String)) (i s : Nat) (b : String),
      rc ≤ i → i < rc + (coordGo t m r rc resp).attempts →
      t i = .http s b → s < 500 →
      (coordGo t m r rc resp).attempts = i - rc + 1 ∧
      (coordGo t m r rc resp).response = some (s, b) ∧
      ∀ j d, (j, d) ∈ (coordGo t m r rc resp).sleeps → j < i := by
  intro r
  induction r with
  | zero =>
    intro rc resp i s b h1 h2 _ _
    simp [coordGo] at h2
    omega
  | succ n ih =>
    intro rc resp i s b h1 h2 hti hs
    simp only [coordGo] at h2 ⊢
    cases ht : t rc with
    | http s' b' =>
      rw [ht] at h2
      dsimp only at h2 ⊢
      by_cases hlt : s' < 500
      · simp only [hlt, if_true] at h2 ⊢
        have hi : i = rc := by omega
        subst hi
        rw [hti] at ht
        obtain ⟨rfl, rfl⟩ : s = s' ∧ b = b' := by
          cases ht; exact ⟨rfl, rfl⟩
        refine ⟨by omega, rfl, ?_⟩
        intro j d hj
        simp at hj
      · simp only [hlt, if_false] at h2 ⊢
        have hirc : i ≠ rc := by
          intro hi
          subst hi
          rw [hti] at ht
          cases ht
          omega
        obtain ⟨e1, e2, e3⟩ :=
          ih (rc + 1) (some (s', b')) i s b (by omega) (by omega) hti hs
        refine ⟨by omega, e2, ?_⟩
        intro j d hj
        rcases List.mem_append.mp hj with hj | hj
        · by_cases hb : rc < m - 1
          · simp only [hb, if_true, List.mem_singleton, Prod.mk.injEq] at hj
            omega
          · simp [hb] at hj
        · exact e3 j d hj
    | timeout =>
      rw [ht] at h2
      dsimp only at h2 ⊢
      have hirc : i ≠ rc := by
        intro hi; subst hi; rw [hti] at ht; cases ht
      obtain ⟨e1, e2, e3⟩ := ih (rc + 1) resp i s b (by omega) (by omega) hti hs
      refine ⟨by omega, e2, ?_⟩
      intro j d hj
      rcases List.mem_append.mp hj with hj | hj
      · by_cases hb : rc < m - 1
        · simp only [hb, if_true, List.mem_singleton, Prod.mk.injEq] at hj
          omega
        · simp [hb] at hj
      · exact e3 j d hj
    | connError =>
      rw [ht] at h2
      dsimp only at h2 ⊢
      have hirc : i ≠ rc := by
        intro hi; subst hi; rw [hti] at ht; cases ht
      obtain ⟨e1, e2, e3⟩ := ih (rc + 1) resp i s b (by omega) (by omega) hti hs
      refine ⟨by omega, e2, ?_⟩
      intro j d hj
      rcases List.mem_append.mp hj with hj | hj
      · by_cases hb : rc < m - 1
        · simp only [hb, if_true, List.mem_singleton, Prod.mk.injEq] at hj
          omega
        · simp [hb] at hj
      · exact e3 j d hj
    | otherExc =>
      rw [ht] at h2
      dsimp only at h2 ⊢
      have hirc : i ≠ rc := by
        intro hi; subst hi; rw [hti] at ht; cases ht
      obtain ⟨e1, e2, e3⟩ := ih (rc + 1) resp i s b (by omega) (by omega) hti hs
      exact ⟨by omega, e2, e3⟩

/-- C1: For every attempt index `i ≥ 0`, the backoff delay slept before the
retry following the `i`-th failed attempt equals `2^i` time units (attempt 0
waits 1 unit, attempt 1 waits 2 units, and so on), with no jitter and no
cap: every sleep recorded by the retry loop for attempt index `i` has
duration exactly `2 ^ i`. -/
theorem backoff_delay_is_two_pow (t : Nat → AttemptResult) (m i d : Nat)
    (h : (i, d) ∈ (coordRun t m).sleeps) : d = 2 ^ i :=
  (coordGo_sleeps_spec t m m 0 none i d h).1

theorem backoff_delay_is_two_pow_witness :
    ((0, 1) ∈ (coordRun (fun _ => AttemptResult.timeout) 3).sleeps) ∧
    ((1, 2) ∈ (coordRun (fun _ => AttemptResult.timeout) 3).sleeps) ∧
    (1 : Nat) = 2 ^ 0 := by
  refine ⟨by decide, by decide, ?_⟩
  exact backoff_delay_is_two_pow (fun _ => AttemptResult.timeout) 3 0 1 (by decide)

/-- C2: For every transport and every retry budget `m`, the retry loop makes
at most `m` attempts; and with a transport that answers HTTP 503 on every
attempt and `max_retries = 5`, exactly 5 attempts are made and the run ends
in the exhausted outcome reporting the last observed 503 failure. -/
theorem retry_budget_respected_and_exhausted :
    (∀ (t : Nat → AttemptResult) (m : Nat), (coordRun t m).attempts ≤ m) ∧
    (coordRun (fun _ => AttemptResult.http 503 "Service Unavailable") 5).attempts = 5 ∧
    outcomeOf (coordRun (fun _ => AttemptResult.http 503 "Service Unavailable") 5)
      = Outcome.exhausted 503 "Service Unavailable" :=
  ⟨fun t m => coordGo_attempts_le t m m 0 none, by decide, by decide⟩

/-- C3: For every attempt whose HTTP status is below 500, the retry loop
terminates immediately: if attempt `i` returned status `s < 500` then the
run made exactly `i + 1` attempts, every sleep happened strictly before
attempt `i`, and the final stored response (hence the terminal outcome,
fatal for a non-200 such as 404) carries that raw status and body. -/
theorem sub500_terminates_immediately (t : Nat → AttemptResult) (m i s : Nat)
    (b : String) (hi : i < (coordRun t m).attempts)
    (ht : t i = AttemptResult.http s b) (hs : s < 500) :
    (coordRun t m).attempts = i + 1 ∧
    (coordRun t m).response = some (s, b) ∧
    (∀ j d, (j, d) ∈ (coordRun t m).sleeps → j < i) ∧
    outcomeOf (coordRun t m)
      = (if s = 200 then Outcome.succeeded b else Outcome.fatal s b) := by
  obtain ⟨e1, e2, e3⟩ :=
    coordGo_break t m m 0 none i s b (Nat.zero_le i) (by simpa [coordRun] using hi) ht hs
  refine ⟨by simpa using e1, e2, e3, ?_⟩
  simp [outcomeOf, coordRun] at e2 ⊢
  rw [e2]
  simp [hs]

theorem sub500_terminates_immediately_witness :
    (0 < (coordRun (fun _ => AttemptResult.http 404 "Not Found") 5).attempts) ∧
    ((coordRun (fun _ => AttemptResult.http 404 "Not Found") 5).attempts = 0 + 1 ∧
     (coordRun (fun _ => AttemptResult.http 404 "Not Found") 5).response = some (404, "Not Found") ∧
     (∀ j d, (j, d) ∈ (coordRun (fun _ => AttemptResult.http 404 "Not Found") 5).sleeps → j < 0) ∧
     outcomeOf (coordRun (fun _ => AttemptResult.http 404 "Not Found") 5)
       = (if 404 = 200 then Outcome.succeeded "Not Found" else Outcome.fatal 404 "Not Found")) ∧
    (if 404 = 200 then Outcome.succeeded "Not Found" else Outcome.fatal 404 "Not Found")
      = Outcome.fatal 404 "Not Found" := by
  refine ⟨by decide, ?_, by decide⟩
  exact sub500_terminates_immediately (fun _ => AttemptResult.http 404 "Not Found")
    5 0 404 "Not Found" (by decide) rfl (by decide)

/-- C4 as the code violates it, at a concrete input: with a transport whose
attempt 0 raises an unexpected (non-timeout, non-connection) exception and
`max_retries = 2`, a retry does follow attempt 0 (two attempts are made and
budget remained), yet no sleep of `delayFor(0) = 1` — indeed no sleep at
all — happens before it, contradicting the claim that every retryable
failure with remaining budget sleeps before the next attempt. -/
theorem unexpected_exception_no_sleep_cex :
    (coordRun (fun _ => AttemptResult.otherExc) 2).attempts = 2 ∧
    ((0, 1) ∉ (coordRun (fun _ => AttemptResult.otherExc) 2).sleeps) ∧
    (coordRun (fun _ => AttemptResult.otherExc) 2).sleeps = [] := by
  refine ⟨by decide, by decide, by decide⟩

/-- C4 (amended): for the retryable failures that the code backs off on —
HTTP status `≥ 500`, read/connect timeout, connection error — if attempt `i`
was made and at least one attempt remains (`i + 1 < m`), the coordinator
sleeps `delayFor(i) = 2^i` before the next attempt; an unexpected exception
is retried immediately with no sleep at all, and all retries, including
those after unexpected exceptions, stay bounded by the shared budget `m`. -/
theorem retryable_failures_sleep_policy :
    (∀ (t : Nat → AttemptResult) (m i : Nat),
      i < (coordRun t m).attempts → sleepsOn (t i) = true → i + 1 < m →
      (i, 2 ^ i) ∈ (coordRun t m).sleeps) ∧
    (∀ (t : Nat → AttemptResult) (m i d : Nat),
      t i = AttemptResult.otherExc → (i, d) ∉ (coordRun t m).sleeps) ∧
    (∀ (t : Nat → AttemptResult) (m : Nat), (coordRun t m).attempts ≤ m) := by
  refine ⟨?_, ?_, fun t m => coordGo_attempts_le t m m 0 none⟩
  · intro t m i hi hs hm
    exact coordGo_sleep_occurs t m m 0 none i (Nat.zero_le i) (by simpa using hi) hs (by omega)
  · intro t m i d ht hmem
    have h4 := (coordGo_sleeps_spec t m m 0 none i d hmem).2.2.2
    rw [ht] at h4
    simp [sleepsOn] at h4

theorem retryable_failures_sleep_policy_witness :
    (1 < (coordRun (fun _ => AttemptResult.connError) 3).attempts) ∧
    (sleepsOn AttemptResult.connError = true) ∧
    ((1, 2 ^ 1) ∈ (coordRun (fun _ => AttemptResult.connError) 3).sleeps) := by
  refine ⟨by decide, by decide, ?_⟩
  exact retryable_failures_sleep_policy.1 (fun _ => AttemptResult.connError) 3 1
    (by decide) (by decide) (by decide)

/-!
Stream decoder (query.py lines 459-484).  Each line of `response.iter_lines()`
is processed as: skip falsy (empty) lines; for a line starting with the
6-character marker `data: `, run `json.loads` on `line[6:]`; a
`json.JSONDecodeError` is caught and the line skipped; on a parsed value
`data`, run `data.get("choices", [])`, the truthiness-and-length test, and
`choices[0].get("delta", {}).get("content", "")`, printing, writing and
accumulating a truthy content.  Python attribute/type/key/index errors
raised by these steps are NOT caught by the frame-level handler (which
catches only `json.JSONDecodeError`) and abort the whole loop, landing in
the generic handler of query.py lines 611-615.

`JsonVal` models a parsed Python JSON value (`json.loads` output); `.obj`
models a dict (keys distinct), `.num` an integer number.  A `StreamLine`
carries the decoded text of one received line together with the modelled
result of the standard-library call `json.loads` on `text[6:]` (`none`
models a raised `json.JSONDecodeError`); `json.loads` itself is an external
collaborator, not code of this repository.
-/

inductive JsonVal where
  | null
  | bool (b : Bool)
  | num (n : Int)
  | str (s : String)
  | arr (elems : List JsonVal)
  | obj (fields : List (String × JsonVal))

/-- A Python exception escaping the per-frame processing. -/
inductive PyError where
  | attributeError
  | typeError
  | keyError
  | indexError
deriving DecidableEq

/-- Python truthiness of a JSON value (`if choices`, `if content`). -/
def truthy : JsonVal → Bool
  | .null => false
  | .bool b => b
  | .num n => n != 0
  | .str s => !s.data.isEmpty
  | .arr xs => !xs.isEmpty
  | .obj fs => !fs.isEmpty

/-- Python `value.get(key, default)`: dict lookup with default on a dict,
`AttributeError` on any non-dict value. -/
def dictGet (v : JsonVal) (key : String) (dflt : JsonVal) : Except PyError JsonVal :=
  match v with
  | .obj fs =>
    match fs.lookup key with
    | some x => .ok x
    | none => .ok dflt
  | _ => .error .attributeError

/-- Python `len(value)`: defined for str, list and dict; `TypeError`
otherwise. -/
def pyLen : JsonVal → Except PyError Nat
  | .str s => .ok s.data.length
  | .arr xs => .ok xs.length
  | .obj fs => .ok fs.length
  | _ => .error .typeError

/-- Python `value[0]`: first element of a list (or `IndexError`), first
character of a str (or `IndexError`), `KeyError` on a dict whose keys are
strings, `TypeError` on non-subscriptable values. -/
def pyIndexZero : JsonVal → Except PyError JsonVal
  | .arr (x :: _) => .ok x
  | .arr [] => .error .indexError
  | .str s =>
    match s.data with
    | [] => .error .indexError
    | c :: _ => .ok (.str (String.mk [c]))
  | .obj _ => .error .keyError
  | _ => .error .typeError

/-- The per-frame body of query.py lines 473-480 applied to the parsed JSON
value: `choices = data.get("choices", [])`; `if choices and len(choices) > 0`;
`content = choices[0].get("delta", {}).get("content", "")`; `if content` then
the content is emitted (a non-str truthy content would raise `TypeError`
at `f.write(content)` before being accumulated). `ok (some s)` means a delta
`s` was emitted, `ok none` means the frame contributed nothing, `error e`
means an uncaught Python exception aborts the stream. -/
def processPayload (v : JsonVal) : Except PyError (Option String) :=
  match dictGet v "choices" (.arr []) with
  | .error e => .error e
  | .ok choices =>
    if truthy choices then
      match pyLen choices with
      | .error e => .error e
      | .ok n =>
        if n > 0 then
          match pyIndexZero choices with
          | .error e => .error e
          | .ok c0 =>
            match dictGet c0 "delta" (.obj []) with
            | .error e => .error e
            | .ok delta =>
              match dictGet delta "content" (.str "") with
              | .error e => .error e
              | .ok content =>
                if truthy content then
                  match content with
                  | .str cs => .ok (some cs)
                  | _ => .error .typeError
                else .ok none
        else .ok none
    else .ok none

/-- One received line: its decoded text, and the modelled result of the
Python standard-library call `json.loads` applied to `text[6:]` (`none`
models a raised `json.JSONDecodeError`). -/
structure StreamLine where
  text : String
  json : Option JsonVal

/-- Mirrors `line.startswith("data: ")`. -/
def headMatches : List Char → List Char → Bool
  | [], _ => true
  | _ :: _, [] => false
  | p :: ps, c :: cs => p == c && headMatches ps cs

def startsWithData (s : String) : Bool := headMatches "data: ".data s.data

/-- Decoder state while iterating lines: accumulated `full_content`, emitted
deltas in reverse order, and the pending uncaught exception, if any. -/
structure DecState where
  acc : String
  rout : List String
  aborted : Option PyError

/-- Processing of one line of the stream (query.py lines 466-483): once an
exception is pending no further line is processed; an empty line is skipped
(`if line:`); a line not starting with `data: ` is skipped; a `data: ` line
whose payload fails `json.loads` is skipped by the `except
json.JSONDecodeError` handler; otherwise the parsed payload is processed,
either emitting a delta, contributing nothing, or raising. -/
def stepLine (st : DecState) (l : StreamLine) : DecState :=
  if st.aborted.isSome then st
  else if l.text.data.isEmpty then st
  else if startsWithData l.text then
    match l.json with
    | none => st
    | some v =>
      match processPayload v with
      | .error e => { st with aborted := some e }
      | .ok none => st
      | .ok (some s) => { st with acc := st.acc ++ s, rout := s :: st.rout }
  else st

/-- Result of consuming the whole stream: deltas in emission order, the final
accumulated text, and the uncaught exception if the loop was aborted. -/
structure StreamResult where
  deltas : List String
  fullContent : String
  aborted : Option PyError
deriving DecidableEq

def decodeStream (lines : List StreamLine) : StreamResult :=
  let st := lines.foldl stepLine ⟨"", [], none⟩
  ⟨st.rout.reverse, st.acc, st.aborted⟩

/-- Claim-side navigation: the `key` member of a JSON object, `none` on any
non-object or absent member. -/
def jsonField : JsonVal → String → Option JsonVal
  | .obj fs, k => fs.lookup k
  | _, _ => none

/-- Claim-side `choices[0]`: the first element of the `choices` member when
that member is a non-empty list. -/
def firstChoice (v : JsonVal) : Option JsonVal :=
  match jsonField v "choices" with
  | some (.arr (c :: _)) => some c
  | _ => none

/-- Claim-side `choices[0].delta.content` when it is a non-empty string. -/
def deltaContent (v : JsonVal) : Option String :=
  match firstChoice v with
  | none => none
  | some c =>
    match jsonField c "delta" with
    | none => none
    | some d =>
      match jsonField d "content" with
      | some (.str s) => if s.data.isEmpty then none else some s
      | _ => none

/-- Modelled from the claim wording: the delta a line should contribute —
for a line beginning with the `data: ` marker whose payload parses as JSON,
the non-empty `choices[0].delta.content` string, if any. -/
def specDelta (l : StreamLine) : Option String :=
  if startsWithData l.text then l.json.bind deltaContent else none

/-- The shapes of a parsed `content` member that the per-frame code handles
without raising: anything falsy, or a string. -/
def contentOk : Option JsonVal → Bool
  | none => true
  | some ct =>
    if truthy ct then
      match ct with
      | .str _ => true
      | _ => false
    else true

/-- The shapes of `choices[0]` that the per-frame code handles without
raising: an object whose `delta` member, if present, is an object whose
`content` member is handled. -/
def choiceOk : JsonVal → Bool
  | .obj gs =>
    match gs.lookup "delta" with
    | none => true
    | some (.obj hs) => contentOk (hs.lookup "content")
    | some _ => false
  | _ => false

/-- The shapes of a `choices` member the per-frame code handles without
raising: anything falsy, or a non-empty list with a handled first element. -/
def choicesOk (c : JsonVal) : Bool :=
  if truthy c then
    match c with
    | .arr (c0 :: _) => choiceOk c0
    | _ => false
  else true

/-- A parsed payload the per-frame code handles without raising: a JSON
object whose `choices` member, if present, is handled. -/
def wellShaped : JsonVal → Bool
  | .obj fs =>
    match fs.lookup "choices" with
    | none => true
    | some c => choicesOk c
  | _ => false

/-- A stream line that cannot abort the loop: either it is not a `data: `
line, or its payload fails to parse (caught and skipped), or it parses to a
well-shaped value. -/
def streamLineOk (l : StreamLine) : Bool :=
  if startsWithData l.text then
    match l.json with
    | some v => wellShaped v
    | none => true
  else true

theorem truthy_false_of_not_true {c : JsonVal} (h : ¬ truthy c = true) :
    truthy c = false := by
  cases hx : truthy c
  · rfl
  · exact absurd hx h

theorem processPayload_of_wellShaped (v : JsonVal) (h : wellShaped v = true) :
    processPayload v = .ok (deltaContent v) := by
  cases v with
  | null => simp [wellShaped] at h
  | bool b => simp [wellShaped] at h
  | num n => simp [wellShaped] at h
  | str s => simp [wellShaped] at h
  | arr xs => simp [wellShaped] at h
  | obj fs =>
    simp only [wellShaped] at h
    simp only [processPayload, dictGet, deltaContent, firstChoice, jsonField]
    cases hc : fs.lookup "choices" with
    | none =>
      simp only [truthy, List.isEmpty_nil, Bool.not_true, Bool.false_eq_true, if_false]
    | some c =>
      rw [hc] at h
      simp only [choicesOk] at h
      by_cases htc : truthy c = true
      · rw [htc] at h
        simp only [if_true] at h
        cases c with
        | arr cs =>
          cases cs with
          | nil => simp [truthy] at htc
          | cons c0 tl =>
            simp only [htc, if_true, pyLen, pyIndexZero, List.length_cons]
            have hn : tl.length + 1 > 0 := Nat.succ_pos _
            simp only [hn, if_true]
            cases c0 with
            | obj gs =>
              simp only [choiceOk] at h
              simp only [dictGet]
              cases hd : gs.lookup "delta" with
              | none => rfl
              | some d =>
                rw [hd] at h
                cases d with
                | obj hs2 =>
                  cases hct : hs2.lookup "content" with
                  | none => simp [hct, truthy]
                  | some ct =>
                    dsimp only at h
                    rw [hct] at h
                    simp only [contentOk] at h
                    by_cases htt : truthy ct = true
                    · rw [htt] at h
                      simp only [if_true] at h
                      cases ct with
                      | str cs2 =>
                        simp only [htt, if_true]
                        have hne : cs2.data.isEmpty = false := by
                          simp only [truthy] at htt
                          cases hemp : cs2.data.isEmpty
                          · rfl
                          · rw [hemp] at htt; simp at htt
                        simp [hct, hne, htt]
                      | null => simp at h
                      | bool b2 => simp at h
                      | num n2 => simp at h
                      | arr a2 => simp at h
                      | obj o2 => simp at h
                    · have htf := truthy_false_of_not_true htt
                      simp only [htf, Bool.false_eq_true, if_false]
                      cases ct with
                      | str cs2 =>
                        have hemp : cs2.data.isEmpty = true := by
                          simp only [truthy] at htf
                          cases hemp : cs2.data.isEmpty
                          · rw [hemp] at htf; simp at htf
                          · rfl
                        simp [hct, hemp, htf]
                      | null => simp [hct, truthy]
                      | bool b2 =>
                        simp only [truthy] at htf
                        subst htf
                        simp [hct, truthy]
                      | num n2 => simp [hct, htf]
                      | arr a2 => simp [hct, htf]
                      | obj o2 => simp [hct, htf]
                | null => simp at h
                | bool b2 => simp at h
                | num n2 => simp at h
                | str s2 => simp at h
                | arr a2 => simp at h
            | null => simp [choiceOk] at h
            | bool b2 => simp [choiceOk] at h
            | num n2 => simp [choiceOk] at h
            | str s2 => simp [choiceOk] at h
            | arr a2 => simp [choiceOk] at h
        | null => simp [truthy] at htc
        | bool b2 => simp at h
        | num n2 => simp at h
        | str s2 => simp at h
        | obj o2 => simp at h
      · have htf := truthy_false_of_not_true htc
        simp only [htf, Bool.false_eq_true, if_false]
        cases c with
        | arr cs =>
          cases cs with
          | nil => rfl
          | cons c0 tl => simp [truthy] at htf
        | null => rfl
        | bool b2 => simp only [truthy] at htf; subst htf; rfl
        | num n2 => rfl
        | str s2 => simp [htf]
        | obj o2 => rfl

/-- Concatenation of the emitted deltas, as accumulated by
`full_content += content`. -/
def concatStrings : List String → String
  | [] => ""
  | s :: rest => s ++ concatStrings rest

theorem decode_fold_ok :
    ∀ (lines : List StreamLine) (st : DecState), st.aborted = none →
      (∀ l ∈ lines, streamLineOk l = true) →
      lines.foldl stepLine st =
        ⟨st.acc ++ concatStrings (lines.filterMap specDelta),
         (lines.filterMap specDelta).reverse ++ st.rout, none⟩ := by
  intro lines
  induction lines with
  | nil =>
    intro st h1 _
    obtain ⟨a, r, ab⟩ := st
    simp only at h1
    subst h1
    simp [concatStrings]
  | cons l rest ih =>
    intro st h1 hok
    have hlok := hok l (List.mem_cons_self l rest)
    have hrok : ∀ x ∈ rest, streamLineOk x = true :=
      fun x hx => hok x (List.mem_cons_of_mem l hx)
    have habs : st.aborted.isSome = false := by rw [h1]; rfl
    simp only [List.foldl_cons, List.filterMap_cons]
    cases hemp : l.text.data.isEmpty with
    | true =>
      have hsd : startsWithData l.text = false := by
        rw [List.isEmpty_iff] at hemp
        rw [startsWithData, hemp]
        decide
      have hstep : stepLine st l = st := by
        simp [stepLine, habs, hemp]
      have hspec : specDelta l = none := by simp [specDelta, hsd]
      rw [hstep, hspec, ih st h1 hrok]
    | false =>
      cases hsw : startsWithData l.text with
      | false =>
        have hstep : stepLine st l = st := by simp [stepLine, habs, hemp, hsw]
        have hspec : specDelta l = none := by simp [specDelta, hsw]
        rw [hstep, hspec, ih st h1 hrok]
      | true =>
        cases hj : l.json with
        | none =>
          have hstep : stepLine st l = st := by
            simp [stepLine, habs, hemp, hsw, hj]
          have hspec : specDelta l = none := by simp [specDelta, hsw, hj]
          rw [hstep, hspec, ih st h1 hrok]
        | some v =>
          have hws : wellShaped v = true := by
            simp only [streamLineOk, hsw, hj, if_true] at hlok
            exact hlok
          have hpp := processPayload_of_wellShaped v hws
          have hspec : specDelta l = deltaContent v := by
            simp [specDelta, hsw, hj]
          cases hdc : deltaContent v with
          | none =>
            have hstep : stepLine st l = st := by
              rw [hdc] at hpp
              simp [stepLine, habs, hemp, hsw, hj, hpp]
            rw [hstep, hspec, hdc, ih st h1 hrok]
          | some s =>
            have hstep : stepLine st l = ⟨st.acc ++ s, s :: st.rout, st.aborted⟩ := by
              rw [hdc] at hpp
              simp [stepLine, habs, hemp, hsw, hj, hpp]
            rw [hstep, hspec, hdc,
              ih ⟨st.acc ++ s, s :: st.rout, st.aborted⟩ (by simpa using h1) hrok]
            simp [concatStrings, String.append_assoc]

/-- C5 (amended): for every finite sequence of stream lines in which each
`data: ` line's payload either fails to parse or parses to a value the
per-frame code handles without raising (an object whose `choices` member,
when truthy, is a non-empty list whose first element is an object whose
`delta` member is an object whose `content` member, when truthy, is a
string), the decoder yields as deltas, in input order, exactly the
non-empty `choices[0].delta.content` strings of the lines that begin with
the `data: ` marker and parse as JSON, and the final accumulated text
equals their concatenation in that order. -/
theorem stream_decoder_yields_deltas_in_order (lines : List StreamLine)
    (h : ∀ l ∈ lines, streamLineOk l = true) :
    (decodeStream lines).aborted = none ∧
    (decodeStream lines).deltas = lines.filterMap specDelta ∧
    (decodeStream lines).fullContent = concatStrings (lines.filterMap specDelta) := by
  have hfold := decode_fold_ok lines ⟨"", [], none⟩ rfl h
  simp [decodeStream, hfold]

/-- The `data: {"choices":[{"delta":{"content":"Hel"}}]}` frame. -/
def helFrame : StreamLine :=
  ⟨"data: \x7b\"choices\":[\x7b\"delta\":\x7b\"content\":\"Hel\"\x7d\x7d]\x7d",
   some (.obj [("choices", .arr [.obj [("delta", .obj [("content", .str "Hel")])]])])⟩

/-- The `data: {"choices":[{"delta":{"content":"lo"}}]}` frame. -/
def loFrame : StreamLine :=
  ⟨"data: \x7b\"choices\":[\x7b\"delta\":\x7b\"content\":\"lo\"\x7d\x7d]\x7d",
   some (.obj [("choices", .arr [.obj [("delta", .obj [("content", .str "lo")])]])])⟩

theorem stream_decoder_yields_deltas_in_order_witness :
    (∀ l ∈ [helFrame, loFrame], streamLineOk l = true) ∧
    (decodeStream [helFrame, loFrame]).deltas = [helFrame, loFrame].filterMap specDelta ∧
    (decodeStream [helFrame, loFrame]).deltas = ["Hel", "lo"] ∧
    (decodeStream [helFrame, loFrame]).fullContent = "Hello" := by
  refine ⟨by decide, ?_, by decide, by decide⟩
  exact (stream_decoder_yields_deltas_in_order [helFrame, loFrame] (by decide)).2.1

/-- C5 as stated fails on the code: fed the line `data: 123` (which begins
with the marker and parses as the JSON number 123) followed by a valid
`"Hel"` frame, the claim predicts the single delta `"Hel"` accumulating
`"Hel"`, but the decoder raises an uncaught `AttributeError` on the first
line and yields nothing. -/
theorem stream_decoder_yields_deltas_in_order_cex :
    ([⟨"data: 123", some (.num 123)⟩, helFrame].filterMap specDelta = ["Hel"]) ∧
    (decodeStream [⟨"data: 123", some (.num 123)⟩, helFrame]).deltas = [] ∧
    (decodeStream [⟨"data: 123", some (.num 123)⟩, helFrame]).fullContent = "" ∧
    (decodeStream [⟨"data: 123", some (.num 123)⟩, helFrame]).aborted
      = some PyError.attributeError ∧
    (decodeStream [⟨"data: 123", some (.num 123)⟩, helFrame]).deltas
      ≠ [⟨"data: 123", some (.num 123)⟩, helFrame].filterMap specDelta := by
  refine ⟨by decide, by decide, by decide, by decide, by decide⟩

theorem startsWithData_text_not_empty (s : String) (h : startsWithData s = true) :
    s.data.isEmpty = false := by
  cases hd : s.data with
  | nil => rw [startsWithData, hd] at h; exact absurd h (by decide)
  | cons c t => rfl

theorem stepLine_skips_malformed (st : DecState) (l : StreamLine)
    (hm : startsWithData l.text = true) (hj : l.json = none) :
    stepLine st l = st := by
  have hne := startsWithData_text_not_empty l.text hm
  cases hab : st.aborted.isSome
  · simp [stepLine, hab, hne, hm, hj]
  · simp [stepLine, hab]

/-- C6: for every stream line that begins with the `data: ` marker but whose
payload fails to parse as JSON (such as an upstream `[DONE]` sentinel line),
the decoder ignores that line entirely: the decode of any stream containing
it equals the decode of the same stream with it removed, so the stream is
never aborted by the malformed frame and the surrounding deltas keep their
order. -/
theorem malformed_frame_skipped (xs ys : List StreamLine) (l : StreamLine)
    (hm : startsWithData l.text = true) (hj : l.json = none) :
    decodeStream (xs ++ l :: ys) = decodeStream (xs ++ ys) := by
  simp only [decodeStream, List.foldl_append, List.foldl_cons]
  rw [stepLine_skips_malformed _ l hm hj]

theorem malformed_frame_skipped_witness :
    startsWithData "data: [DONE]" = true ∧
    decodeStream [helFrame, ⟨"data: [DONE]", none⟩, loFrame]
      = decodeStream [helFrame, loFrame] ∧
    (decodeStream [helFrame, ⟨"data: [DONE]", none⟩, loFrame]).deltas = ["Hel", "lo"] ∧
    (decodeStream [helFrame, ⟨"data: [DONE]", none⟩, loFrame]).fullContent = "Hello" ∧
    (decodeStream [helFrame, ⟨"data: [DONE]", none⟩, loFrame]).aborted = none := by
  refine ⟨by decide, ?_, by decide, by decide, by decide⟩
  exact malformed_frame_skipped [helFrame] [loFrame] ⟨"data: [DONE]", none⟩ (by decide) rfl

/-- Holds the parsed payload's dict-ness, `data.get` being the first attribute
access the frame handler performs on it. -/
def isObj : JsonVal → Bool
  | .obj _ => true
  | _ => false

theorem processPayload_nonObject (v : JsonVal) (h : isObj v = false) :
    processPayload v = .error .attributeError := by
  cases v with
  | null => rfl
  | bool b => rfl
  | num n => rfl
  | str s => rfl
  | arr xs => rfl
  | obj fs => simp [isObj] at h

theorem foldl_stepLine_aborted :
    ∀ (ys : List StreamLine) (st : DecState),
      st.aborted.isSome = true → ys.foldl stepLine st = st := by
  intro ys
  induction ys with
  | nil => intro st _; rfl
  | cons l rest ih =>
    intro st h
    simp only [List.foldl_cons, stepLine, h, if_true]
    exact ih st h

/-- C10: in streaming mode, a received line that begins with `data: ` and
whose payload parses as valid JSON that is not a JSON object makes the
per-frame handler raise an `AttributeError` (at `data.get`), which the
frame-level handler — catching only JSON decode errors — does not catch:
if the lines before it were processed without abort, the decode of the
whole stream keeps exactly the deltas and accumulated text produced before
that line, abandons all remaining lines, and terminates with the uncaught
`AttributeError` pending for the generic top-level handler. -/
theorem nonobject_json_aborts_stream (xs ys : List StreamLine) (t : String)
    (v : JsonVal) (ht : startsWithData t = true) (hv : isObj v = false)
    (hok : (decodeStream xs).aborted = none) :
    decodeStream (xs ++ ⟨t, some v⟩ :: ys) =
      ⟨(decodeStream xs).deltas, (decodeStream xs).fullContent,
       some PyError.attributeError⟩ := by
  simp only [decodeStream] at hok ⊢
  have habs : (xs.foldl stepLine ⟨"", [], none⟩).aborted.isSome = false := by
    rw [hok]; rfl
  have hne := startsWithData_text_not_empty t ht
  have hstep : stepLine (xs.foldl stepLine ⟨"", [], none⟩) ⟨t, some v⟩ =
      ⟨(xs.foldl stepLine ⟨"", [], none⟩).acc,
       (xs.foldl stepLine ⟨"", [], none⟩).rout, some PyError.attributeError⟩ := by
    simp [stepLine, habs, hne, ht, processPayload_nonObject v hv]
  rw [List.foldl_append, List.foldl_cons, hstep,
    foldl_stepLine_aborted ys _ (by rfl)]

theorem nonobject_json_aborts_stream_witness :
    startsWithData "data: 123" = true ∧
    isObj (JsonVal.num 123) = false ∧
    (decodeStream []).aborted = none ∧
    decodeStream [⟨"data: 123", some (JsonVal.num 123)⟩, loFrame]
      = ⟨[], "", some PyError.attributeError⟩ := by
  refine ⟨by decide, rfl, rfl, ?_⟩
  have h := nonobject_json_aborts_stream [] [loFrame] "data: 123" (JsonVal.num 123)
    (by decide) rfl rfl
  exact h.trans (by decide)

/-!
Artifact extractor: `extract_and_save_files` (query.py lines 375-453).

Fenced code blocks are found with
`re.finditer(r'```(\w+)?\n(.*?)\n```', content, re.DOTALL)`: at each
position, three backticks, then a maximal (possibly empty) run of word
characters as the language tag, then a newline, then the shortest text up
to the next `"\n```"`; `finditer` scans left to right, resuming after each
match.  `scanFences` mirrors this over the character list; the fuel
argument bounds the iteration count and `content.length` always suffices
since every step consumes at least one character.

`language = match.group(1) or 'txt'` defaults an absent tag to `txt`, and
`ext = language_ext_map.get(language.lower(), language.lower())` resolves
the extension.  `code_blocks[ext] = (language, code)` keeps, per extension,
only the last block in document order; `upsertExt` models the Python dict
assignment (update in place or append).  Character-level `lower` models
Python `str.lower` faithfully on ASCII text.
-/

/-- Python `\w` on ASCII text: letters, digits, underscore. -/
def isWordChar (c : Char) : Bool := c.isAlphanum || c == '_'

/-- Match the fence pattern anchored at the start of `cs`: returns the tag
(possibly empty), the code between the delimiter lines, and the suffix
after the closing backticks. -/
def findCloseFence : List Char → Option (List Char × List Char)
  | [] => none
  | c :: rest =>
    if headMatches "\n```".data (c :: rest) then
      some ([], (c :: rest).drop 4)
    else
      match findCloseFence rest with
      | some (code, after) => some (c :: code, after)
      | none => none

def matchFenceAt (cs : List Char) : Option (String × String × List Char) :=
  if headMatches "```".data cs then
    let body := cs.drop 3
    match body.span isWordChar with
    | (tagChars, rest1) =>
      match rest1 with
      | '\n' :: rest2 =>
        match findCloseFence rest2 with
        | some (code, after) => some (⟨tagChars⟩, ⟨code⟩, after)
        | none => none
      | _ => none
  else none

/-- All `(language, code)` pairs of fenced blocks in document order, with an
absent tag already defaulted to `txt` as in `match.group(1) or 'txt'`. -/
def scanFences : Nat → List Char → List (String × String)
  | 0, _ => []
  | _ + 1, [] => []
  | fuel + 1, c :: rest =>
    match matchFenceAt (c :: rest) with
    | some (tag, code, after) =>
      ((if tag.data.isEmpty then "txt" else tag), code) :: scanFences fuel after
    | none => scanFences fuel rest

def codeBlocksOf (content : String) : List (String × String) :=
  scanFences content.data.length content.data

/-- The fixed language→extension table of query.py lines 380-400. -/
def language_ext_map : List (String × String) :=
  [("python", "py"), ("javascript", "js"), ("typescript", "ts"), ("bash", "sh"),
   ("shell", "sh"), ("html", "html"), ("xml", "xml"), ("json", "json"),
   ("yaml", "yml"), ("markdown", "md"), ("sql", "sql"), ("css", "css"),
   ("java", "java"), ("cpp", "cpp"), ("c", "c"), ("rust", "rs"), ("go", "go"),
   ("ruby", "rb"), ("php", "php")]

/-- Python `str.lower` restricted to ASCII text. -/
def asciiLower (s : String) : String := ⟨s.data.map Char.toLower⟩

/-- `ext = language_ext_map.get(language.lower(), language.lower())`
(query.py line 407). -/
def resolveExt (language : String) : String :=
  match language_ext_map.lookup (asciiLower language) with
  | some e => e
  | none => asciiLower language

/-- The Python dict assignment `code_blocks[ext] = (language, code)`: update
the existing entry for the key in place, else append a new entry. -/
def upsertExt (d : List (String × String × String)) (k : String)
    (v : String × String) : List (String × String × String) :=
  if d.any (fun p => p.1 == k) then
    d.map (fun p => if p.1 == k then (k, v) else p)
  else d ++ [(k, v)]

/-- The code artifacts produced from `content`: one `(ext, language, code)`
entry per resolved extension, built by iterating the blocks in document
order through the dict assignment (query.py lines 402-412). -/
def codeArtifacts (content : String) : List (String × String × String) :=
  (codeBlocksOf content).foldl (fun d b => upsertExt d (resolveExt b.1) b) []

/-- The last element of a list, `none` on the empty list. -/
def lastOf {α : Type _} : List α → Option α
  | [] => none
  | [a] => some a
  | _ :: b :: t => lastOf (b :: t)

theorem lastOf_cons {α : Type _} (a : α) (l : List α) :
    lastOf (a :: l) = some ((lastOf l).getD a) := by
  induction l generalizing a with
  | nil => rfl
  | cons b t ih =>
    show lastOf (b :: t) = some ((lastOf (b :: t)).getD a)
    rw [ih b]
    rfl

theorem map_fst_update (d : List (String × String × String)) (k : String)
    (v : String × String) :
    (d.map (fun p => if p.1 == k then (k, v) else p)).map (fun p => p.1)
      = d.map (fun p => p.1) := by
  induction d with
  | nil => rfl
  | cons p ds ih =>
    simp only [List.map_cons, ih]
    by_cases h : (p.1 == k) = true
    · have hpk : p.1 = k := by simpa using h
      simp [h, hpk]
    · simp [h]

theorem filter_update_none (ds : List (String × String × String)) (k : String)
    (v : String × String) (hk : k ∉ ds.map (fun p => p.1)) :
    (ds.map (fun p => if p.1 == k then (k, v) else p)).filter
      (fun p => p.1 == k) = [] := by
  induction ds with
  | nil => rfl
  | cons p t ih =>
    have hpk : p.1 ≠ k := by
      intro he
      exact hk (by simp [he])
    have hkt : k ∉ t.map (fun p => p.1) := fun hm => hk (by simp [hm])
    have hb : (p.1 == k) = false := by simpa using hpk
    simp only [List.map_cons, List.filter_cons, hb, Bool.false_eq_true, if_false]
    simp only [List.filter_cons] at ih
    simpa [hb] using ih hkt

theorem filter_update_self (d : List (String × String × String)) (k : String)
    (v : String × String) (h : (d.map (fun p => p.1)).Nodup)
    (hany : d.any (fun p => p.1 == k) = true) :
    (d.map (fun p => if p.1 == k then (k, v) else p)).filter
      (fun p => p.1 == k) = [(k, v)] := by
  induction d with
  | nil => simp at hany
  | cons p ds ih =>
    simp only [List.map_cons, List.nodup_cons] at h
    by_cases hp : (p.1 == k) = true
    · have hpk : p.1 = k := by simpa using hp
      have hk_not : k ∉ ds.map (fun q => q.1) := by
        rw [← hpk]; exact h.1
      simp only [List.map_cons, hp, if_true, List.filter_cons]
      have : ((k, v).1 == k) = true := by simp
      simp only [this, if_true]
      rw [filter_update_none ds k v hk_not]
    · have hany2 : ds.any (fun q => q.1 == k) = true := by
        rcases List.any_eq_true.mp hany with ⟨q, hq, hqk⟩
        rcases List.mem_cons.mp hq with rfl | hq2
        · exact absurd hqk hp
        · exact List.any_eq_true.mpr ⟨q, hq2, hqk⟩
      have hb : (p.1 == k) = false := by
        cases hx : (p.1 == k)
        · rfl
        · exact absurd hx hp
      simp only [List.map_cons, List.filter_cons, hb, Bool.false_eq_true, if_false]
      exact ih h.2 hany2

theorem filter_update_other (ds : List (String × String × String)) (k : String)
    (v : String × String) (e : String) (hne : (k == e) = false) :
    (ds.map (fun p => if p.1 == k then (k, v) else p)).filter
      (fun p => p.1 == e) = ds.filter (fun p => p.1 == e) := by
  induction ds with
  | nil => rfl
  | cons p t ih =>
    simp only [List.map_cons, List.filter_cons]
    by_cases hp : (p.1 == k) = true
    · have hpk : p.1 = k := by simpa using hp
      have hpe : (p.1 == e) = false := by rw [hpk]; exact hne
      simp only [hp, if_true, hne, hpe, if_false]
      exact ih
    · have hb : (p.1 == k) = false := by
        cases hx : (p.1 == k)
        · rfl
        · exact absurd hx hp
      simp only [hb, Bool.false_eq_true, if_false]
      rw [ih]

theorem upsert_filter_self (d : List (String × String × String)) (k : String)
    (v : String × String) (h : (d.map (fun p => p.1)).Nodup) :
    (upsertExt d k v).filter (fun p => p.1 == k) = [(k, v)] := by
  unfold upsertExt
  split
  · rename_i hany
    exact filter_update_self d k v h hany
  · rename_i hany
    rw [List.filter_append]
    have h1 : d.filter (fun p => p.1 == k) = [] := by
      rw [List.filter_eq_nil_iff]
      intro p hp hpk
      exact hany (List.any_eq_true.mpr ⟨p, hp, hpk⟩)
    simp [h1]

theorem upsert_filter_other (d : List (String × String × String)) (k : String)
    (v : String × String) (e : String) (hne : (k == e) = false) :
    (upsertExt d k v).filter (fun p => p.1 == e)
      = d.filter (fun p => p.1 == e) := by
  unfold upsertExt
  split
  · exact filter_update_other d k v e hne
  · rw [List.filter_append]
    simp [hne]

theorem upsert_nodup (d : List (String × String × String)) (k : String)
    (v : String × String) (h : (d.map (fun p => p.1)).Nodup) :
    ((upsertExt d k v).map (fun p => p.1)).Nodup := by
  unfold upsertExt
  split
  · rw [map_fst_update]; exact h
  · rename_i hany
    have hk : k ∉ d.map (fun p => p.1) := by
      intro hmem
      obtain ⟨p, hp, hpk⟩ := List.mem_map.mp hmem
      exact hany (List.any_eq_true.mpr ⟨p, hp, by simp [hpk]⟩)
    simp only [List.map_append, List.map_cons, List.map_nil]
    rw [List.nodup_append]
    exact ⟨h, List.nodup_singleton k, by simpa [List.disjoint_singleton] using hk⟩

theorem fold_upsert_filter (ext : String) :
    ∀ (blocks : List (String × String)) (d : List (String × String × String)),
      (d.map (fun p => p.1)).Nodup →
      ((blocks.foldl (fun acc b => upsertExt acc (resolveExt b.1) b) d).filter
          (fun a => a.1 == ext)).map (fun a => a.2.2) =
        match lastOf (blocks.filter (fun b => resolveExt b.1 == ext)) with
        | some c => [c.2]
        | none => (d.filter (fun a => a.1 == ext)).map (fun a => a.2.2) := by
  intro blocks
  induction blocks with
  | nil => intro d _; rfl
  | cons b bs ih =>
    intro d hd
    simp only [List.foldl_cons, List.filter_cons]
    have hd' := upsert_nodup d (resolveExt b.1) b hd
    by_cases hres : (resolveExt b.1 == ext) = true
    · have hre : resolveExt b.1 = ext := by simpa using hres
      simp only [hres, if_true]
      rw [ih _ hd', lastOf_cons]
      cases hlast : lastOf (bs.filter (fun b2 => resolveExt b2.1 == ext)) with
      | some c => rfl
      | none =>
        simp only [Option.getD]
        rw [hre] at hd' ⊢
        rw [upsert_filter_self d ext b hd]
        rfl
    · have hb : (resolveExt b.1 == ext) = false := by
        cases hx : (resolveExt b.1 == ext)
        · rfl
        · exact absurd hx hres
      simp only [hb, Bool.false_eq_true, if_false]
      rw [ih _ hd']
      cases hlast : lastOf (bs.filter (fun b2 => resolveExt b2.1 == ext)) with
      | some c => rfl
      | none =>
        rw [upsert_filter_other d (resolveExt b.1) b ext hb]

/-- C7: for every input text and every extension, the code artifacts carry
at most one entry for that extension, and when at least one fenced block
resolves to it (in particular when two or more do), the single retained
artifact's content equals the content of the last such block in document
order — last-write-wins. -/
theorem code_block_last_write_wins (content ext : String) :
    ((codeArtifacts content).filter (fun a => a.1 == ext)).map (fun a => a.2.2)
      = match lastOf ((codeBlocksOf content).filter
            (fun b => resolveExt b.1 == ext)) with
        | some c => [c.2]
        | none => [] := by
  have h := fold_upsert_filter ext (codeBlocksOf content) [] List.nodup_nil
  exact h

/-- C8 as stated fails on the code: the tag `ABC` is not a key of the fixed
table, so the claim predicts the tag itself, verbatim, as the extension;
the code lowercases the tag before both the lookup and the fallback, so a
block tagged `ABC` yields the extension `abc`, not `ABC`. -/
theorem extension_resolution_cex :
    language_ext_map.lookup "ABC" = none ∧
    resolveExt "ABC" = "abc" ∧
    "abc" ≠ "ABC" ∧
    (codeArtifacts "```ABC\ncode\n```").map (fun a => a.1) = ["abc"] ∧
    (codeArtifacts "```ABC\ncode\n```").filter (fun a => a.1 == "ABC") = [] := by
  refine ⟨by decide, by decide, by decide, by decide, by decide⟩

/-- C8 (amended): the resolved extension of a fenced block is computed from
the lowercased language tag: an untagged block resolves to `txt`; when the
lowercased tag is a key of the fixed table (python→py, javascript→js,
rust→rs, go→go, ...) the extension is the table image; otherwise it is the
lowercased tag itself. -/
theorem extension_resolution :
    resolveExt "txt" = "txt" ∧
    resolveExt "python" = "py" ∧
    resolveExt "javascript" = "js" ∧
    resolveExt "rust" = "rs" ∧
    resolveExt "go" = "go" ∧
    (∀ tag e, language_ext_map.lookup (asciiLower tag) = some e →
      resolveExt tag = e) ∧
    (∀ tag, language_ext_map.lookup (asciiLower tag) = none →
      resolveExt tag = asciiLower tag) := by
  refine ⟨by decide, by decide, by decide, by decide, by decide, ?_, ?_⟩
  · intro tag e h
    simp [resolveExt, h]
  · intro tag h
    simp [resolveExt, h]

theorem extension_resolution_witness :
    (language_ext_map.lookup (asciiLower "zig") = none ∧
      resolveExt "zig" = asciiLower "zig") ∧
    (language_ext_map.lookup (asciiLower "Python") = some "py" ∧
      resolveExt "Python" = "py") := by
  refine ⟨⟨by decide, ?_⟩, ⟨by decide, ?_⟩⟩
  · exact extension_resolution.2.2.2.2.2.2 "zig" (by decide)
  · exact extension_resolution.2.2.2.2.2.1 "Python" "py" (by decide)

/-!
SVG extraction (query.py lines 421-433): the opening tag is located with
`content.lower().find("<svg")` — a case-insensitive search — but the closing
tag with `content.find("</svg>", start_idx)`, a case-SENSITIVE search on the
original text; the artifact is `content[start_idx:end_idx + 6]`, and none is
produced when either search fails.  `firstOccurChars` models `str.find`.
-/

/-- Smallest index at which `pat` occurs in the list, scanning left to
right; models Python `str.find` (with `none` for `-1`). -/
def firstOccurChars (pat : List Char) : List Char → Option Nat
  | [] => if headMatches pat [] then some 0 else none
  | c :: t =>
    if headMatches pat (c :: t) then some 0
    else (firstOccurChars pat t).map (· + 1)

/-- Python `hay.find(pat, start)`: smallest occurrence index `≥ start`. -/
def pyFind (hay pat : List Char) (start : Nat) : Option Nat :=
  (firstOccurChars pat (hay.drop start)).map (· + start)

/-- The SVG artifact of query.py lines 421-433: from the first
case-insensitive occurrence of `<svg` to the first subsequent
case-sensitive `</svg>` inclusive; `none` when either search fails. -/
def svgArtifact (content : String) : Option String :=
  match firstOccurChars "<svg".data (content.data.map Char.toLower) with
  | none => none
  | some start =>
    match pyFind content.data "</svg>".data start with
    | none => none
    | some endIdx => some ⟨(content.data.drop start).take (endIdx + 6 - start)⟩

/-- Modelled from the claim wording, for comparison with `svgArtifact`: the
same extraction but with a case-insensitive closing-tag search. -/
def svgArtifactClaim (content : String) : Option String :=
  match firstOccurChars "<svg".data (content.data.map Char.toLower) with
  | none => none
  | some start =>
    match pyFind (content.data.map Char.toLower) "</svg>".data start with
    | none => none
    | some endIdx => some ⟨(content.data.drop start).take (endIdx + 6 - start)⟩

/-- `pat` occurs (case-sensitively) at index `i` of `s`. -/
def occursAtPos (s pat : String) (i : Nat) : Prop :=
  headMatches pat.data (s.data.drop i) = true

/-- Lowercase `pat` occurs at index `i` of the lowercased `s`. -/
def occursCIAtPos (s pat : String) (i : Nat) : Prop :=
  headMatches pat.data ((s.data.map Char.toLower).drop i) = true

instance (s pat : String) (i : Nat) : Decidable (occursAtPos s pat i) := by
  unfold occursAtPos
  infer_instance

instance (s pat : String) (i : Nat) : Decidable (occursCIAtPos s pat i) := by
  unfold occursCIAtPos
  infer_instance

theorem firstOccurChars_some (pat : List Char) :
    ∀ (hay : List Char) (i : Nat), firstOccurChars pat hay = some i →
      headMatches pat (hay.drop i) = true ∧
      ∀ j, j < i → headMatches pat (hay.drop j) = false := by
  intro hay
  induction hay with
  | nil =>
    intro i h
    simp only [firstOccurChars] at h
    split at h
    · rename_i hm
      cases h
      exact ⟨hm, fun j hj => absurd hj (Nat.not_lt_zero j)⟩
    · cases h
  | cons c t ih =>
    intro i h
    simp only [firstOccurChars] at h
    split at h
    · rename_i hm
      cases h
      exact ⟨hm, fun j hj => absurd hj (Nat.not_lt_zero j)⟩
    · rename_i hm
      have hmf : headMatches pat (c :: t) = false := by
        cases hx : headMatches pat (c :: t)
        · rfl
        · exact absurd hx hm
      cases hf : firstOccurChars pat t with
      | none => rw [hf] at h; cases h
      | some i0 =>
        rw [hf] at h
        have h' : some (i0 + 1) = some i := h
        obtain rfl : i0 + 1 = i := by cases h'; rfl
        obtain ⟨h1, h2⟩ := ih i0 hf
        refine ⟨by simpa [List.drop] using h1, ?_⟩
        intro j hj
        cases j with
        | zero => simpa using hmf
        | succ j0 =>
          have := h2 j0 (by omega)
          simpa [List.drop] using this

theorem firstOccurChars_none (pat : List Char) :
    ∀ (hay : List Char), firstOccurChars pat hay = none →
      ∀ j, headMatches pat (hay.drop j) = false := by
  intro hay
  induction hay with
  | nil =>
    intro h j
    simp only [firstOccurChars] at h
    split at h
    · cases h
    · rename_i hm
      have hmf : headMatches pat [] = false := by
        cases hx : headMatches pat []
        · rfl
        · exact absurd hx hm
      simpa [List.drop_nil] using hmf
  | cons c t ih =>
    intro h j
    simp only [firstOccurChars] at h
    split at h
    · cases h
    · rename_i hm
      have hmf : headMatches pat (c :: t) = false := by
        cases hx : headMatches pat (c :: t)
        · rfl
        · exact absurd hx hm
      have ht : firstOccurChars pat t = none := by
        cases hf : firstOccurChars pat t
        · rfl
        · rw [hf] at h; cases h
      cases j with
      | zero => simpa using hmf
      | succ j0 => simpa [List.drop] using ih ht j0

/-- C9 (amended): for every input text at most one SVG artifact is produced
(the extraction returns an `Option`); when it is produced it spans from the
first case-insensitive occurrence of `<svg` to the end of the first
subsequent case-SENSITIVE occurrence of `</svg>` — the closing-tag search
`content.find("</svg>", start_idx)` does not lowercase — and when no such
case-sensitive closing tag follows the opening occurrence, no SVG artifact
is produced. -/
theorem svg_extraction (content : String) :
    (∀ s, svgArtifact content = some s →
      ∃ i j, occursCIAtPos content "<svg" i ∧
        (∀ i2, i2 < i → ¬ occursCIAtPos content "<svg" i2) ∧
        occursAtPos content "</svg>" j ∧ i ≤ j ∧
        (∀ j2, i ≤ j2 → j2 < j → ¬ occursAtPos content "</svg>" j2) ∧
        s.data = (content.data.drop i).take (j + 6 - i)) ∧
    ((∀ i j, occursCIAtPos content "<svg" i → i ≤ j →
        ¬ occursAtPos content "</svg>" j) → svgArtifact content = none) := by
  constructor
  · intro s hs
    unfold svgArtifact at hs
    cases h1 : firstOccurChars "<svg".data (content.data.map Char.toLower) with
    | none => rw [h1] at hs; cases hs
    | some start =>
      rw [h1] at hs
      dsimp only at hs
      cases h2 : pyFind content.data "</svg>".data start with
      | none => rw [h2] at hs; cases hs
      | some endIdx =>
        rw [h2] at hs
        have hseq : s = ⟨(content.data.drop start).take (endIdx + 6 - start)⟩ := by
          cases hs; rfl
        obtain ⟨ho1, ho2⟩ := firstOccurChars_some _ _ _ h1
        simp only [pyFind] at h2
        cases hk : firstOccurChars "</svg>".data (content.data.drop start) with
        | none => rw [hk] at h2; cases h2
        | some k =>
          rw [hk] at h2
          have h2' : some (k + start) = some endIdx := h2
          obtain rfl : k + start = endIdx := by cases h2'; rfl
          obtain ⟨hc1, hc2⟩ := firstOccurChars_some _ _ _ hk
          rw [List.drop_drop, Nat.add_comm] at hc1
          refine ⟨start, k + start, ho1, ?_, hc1, by omega, ?_, ?_⟩
          · intro i2 hi2
            simp [occursCIAtPos, ho2 i2 hi2]
          · intro j2 hj2a hj2b
            have hlt : j2 - start < k := by omega
            have := hc2 (j2 - start) hlt
            rw [List.drop_drop] at this
            have hsum : start + (j2 - start) = j2 := by omega
            rw [hsum] at this
            simp [occursAtPos, this]
          · rw [hseq]
  · intro hyp
    unfold svgArtifact
    cases h1 : firstOccurChars "<svg".data (content.data.map Char.toLower) with
    | none => rfl
    | some start =>
      dsimp only
      cases h2 : pyFind content.data "</svg>".data start with
      | none => rfl
      | some endIdx =>
        exfalso
        obtain ⟨ho1, _⟩ := firstOccurChars_some _ _ _ h1
        simp only [pyFind] at h2
        cases hk : firstOccurChars "</svg>".data (content.data.drop start) with
        | none => rw [hk] at h2; cases h2
        | some k =>
          rw [hk] at h2
          obtain ⟨hc1, _⟩ := firstOccurChars_some _ _ _ hk
          rw [List.drop_drop, Nat.add_comm] at hc1
          exact hyp start (k + start) ho1 (by omega) hc1

/-- C9 as stated fails on the code: in `<svg a></SVG>` the opening `<svg`
occurs (case-insensitively) at index 0 and a case-insensitive closing
`</svg>` occurs at index 7, so the claim — and the claim-side extraction
`svgArtifactClaim` — produce the whole string as the artifact; the code's
closing-tag search is case-sensitive and produces no artifact. -/
theorem svg_extraction_cex :
    svgArtifactClaim "<svg a></SVG>" = some "<svg a></SVG>" ∧
    svgArtifact "<svg a></SVG>" = none ∧
    occursCIAtPos "<svg a></SVG>" "<svg" 0 ∧
    occursCIAtPos "<svg a></SVG>" "</svg>" 7 := by
  refine ⟨by decide, by decide, by decide, by decide⟩

theorem svg_extraction_witness :
    svgArtifact "pre <svg width=\"1\">x</svg> post"
      = some "<svg width=\"1\">x</svg>" ∧
    (∃ i j, occursCIAtPos "pre <svg width=\"1\">x</svg> post" "<svg" i ∧
      (∀ i2, i2 < i →
        ¬ occursCIAtPos "pre <svg width=\"1\">x</svg> post" "<svg" i2) ∧
      occursAtPos "pre <svg width=\"1\">x</svg> post" "</svg>" j ∧ i ≤ j ∧
      (∀ j2, i ≤ j2 → j2 < j →
        ¬ occursAtPos "pre <svg width=\"1\">x</svg> post" "</svg>" j2) ∧
      ("<svg width=\"1\">x</svg>" : String).data
        = (("pre <svg width=\"1\">x</svg> post" : String).data.drop i).take
            (j + 6 - i)) := by
  refine ⟨by decide, ?_⟩
  exact (svg_extraction "pre <svg width=\"1\">x</svg> post").1
    "<svg width=\"1\">x</svg>" (by decide)
